import Mathlib

/-!
Verification of the RIDE setting-controller layer
(`src/robotide/controller/settingcontrollers.py`) against its
natural-language specification.

Strings are modelled as lists of characters (`Str`).  Stateful Python
objects become Lean structures; every mutating method becomes a pure
state-transforming function.  Notifications and dirty-marking on the
owning parent are modelled as counters, so that "notified exactly once"
style properties are expressible.
-/

namespace RideModel

/-- Strings are modelled as character lists. -/
abbrev Str := List Char

/-- The characters stripped by Python `str.strip()` for ASCII input. -/
def isPySpace (c : Char) : Bool :=
  c = ' ' || c = '\t' || c = '\n' || c = '\r' || c = '\x0b' || c = '\x0c'

/-- Python `str.strip()`: remove leading and trailing whitespace. -/
def pyStrip (l : Str) : Str :=
  ((l.dropWhile isPySpace).reverse.dropWhile isPySpace).reverse

/-- Accumulates one token (in reverse) while scanning for unescaped pipes. -/
def splitValueAux : Str → Str → List Str
  | [], acc => [acc.reverse]
  | '\\' :: '|' :: rest, acc => splitValueAux rest ('|' :: acc)
  | '|' :: rest, acc => acc.reverse :: splitValueAux rest []
  | c :: rest, acc => splitValueAux rest (c :: acc)

/-- Modelled from the spec: `robotide.utils.split_value`, which is not under
`src/`.  Per the spec's separator parsing rule it splits on unescaped pipe
boundaries, treats a backslash-escaped pipe as a literal pipe character, trims
surrounding whitespace from each token, and maps an empty value to the empty
list. -/
def splitValue (v : Str) : List Str :=
  if v = [] then [] else (splitValueAux v []).map pyStrip

/-- The owning parent entity, observed through the calls the controllers make
on it.  Modelled from the spec: the base controller (`ControllerWithParent`,
not under `src/`) delegates `mark_dirty` to the owner, and the owner exposes
`notify_settings_changed` / `notify_steps_changed`.  Counters record how often
each was triggered. -/
structure Owner where
  dirtyCount : Nat
  settingsChangedCount : Nat
  stepsChangedCount : Nat
deriving DecidableEq

/-- `mark_dirty`: the owner is marked dirty (counted). -/
def markDirty (o : Owner) : Owner :=
  { o with dirtyCount := o.dirtyCount + 1 }

/-- `parent.notify_settings_changed()` (counted). -/
def notifySettingsChanged (o : Owner) : Owner :=
  { o with settingsChangedCount := o.settingsChangedCount + 1 }

/-- `parent.notify_steps_changed()` (counted). -/
def notifyStepsChanged (o : Owner) : Owner :=
  { o with stepsChangedCount := o.stepsChangedCount + 1 }

/-! ## VariableController (`__eq__` at lines 417-420, `__hash__` at 422-423) -/

/-- The wrapped variable record: name, ordered value tokens, comment. -/
structure VarRecord where
  name : Str
  value : List Str
  comment : Option Str
deriving DecidableEq

/-- A variable controller: an object identity (for Python `is`) plus the
wrapped record `self._var`. -/
structure VariableCtrl where
  objId : Nat
  varRec : VarRecord
deriving DecidableEq

/-- The possible right-hand operands of `VariableController.__eq__`: `None`,
another variable controller, or an object of some other class. -/
inductive PyOther where
  | noneObj : PyOther
  | varCtrlObj : VariableCtrl → PyOther
  | otherClassObj : Nat → PyOther
deriving DecidableEq

/-- `VariableController.__eq__` (the later definition in the class body, which
is the operative one in Python): identity shortcut, then class check, then
record comparison.  `None` and foreign-class operands fail the class check. -/
def variableEq (self : VariableCtrl) (other : PyOther) : Bool :=
  match other with
  | .noneObj => false
  | .otherClassObj _ => false
  | .varCtrlObj o =>
      if self.objId = o.objId then true else decide (self.varRec = o.varRec)

/-- Modelled from the spec: `hash(self._var)` hashes the wrapped record (a
robot-parsing object not under `src/`); any pure function of the record is
consistent with record equality. -/
def varRecordHash (r : VarRecord) : Nat :=
  r.name.length + 2 * r.value.length + 3 * (r.comment.getD []).length

/-- `VariableController.__hash__`: `hash(self._var) + 1`. -/
def variableHash (c : VariableCtrl) : Nat :=
  varRecordHash c.varRec + 1

/-! ## Import controllers (`_ImportController`, `ResourceImportController`) -/

/-- The owner of an import controller, observed through the calls
`set_value` makes: `mark_dirty`, the published import-changed events,
`notify_imports_modified`, and `resource_import_modified(name)`. -/
structure ImportOwner where
  dirtyCount : Nat
  importsModifiedCount : Nat
  resourceModifiedNames : List Str
  publishedChangedNames : List Str
deriving DecidableEq

/-- A resource import controller.  `resolvedImport` models the
`_resolved_import` flag (class attribute default `False`); `cachedImported`
models the `_imported_resource_controller` attribute, with the outer `Option`
recording whether the attribute has been assigned at all and the inner
`Option Nat` the (possibly null) factory result; `factoryCalls` counts how
often `resource_file_controller_factory.find_with_import` was consulted. -/
structure ResourceImport where
  name : Str
  args : List Str
  aliasName : Str
  owner : ImportOwner
  resolvedImport : Bool
  cachedImported : Option (Option Nat)
  factoryCalls : Nat
deriving DecidableEq

/-- `_ImportController.set_value(name)` with defaulted `args=None`,
`alias=''`: writes all three fields (`utils.split_value(None or [])` is the
empty list), marks the owner dirty, publishes the import-changed event, and
runs `import_loaded_or_modified`, which notifies imports-modified and — for a
resource import — `resource_import_modified(self.name)`. -/
def importSetValueNameOnly (s : ResourceImport) (n : Str) : ResourceImport :=
  { s with
    name := n
    args := []
    aliasName := []
    owner :=
      { s.owner with
        dirtyCount := s.owner.dirtyCount + 1
        publishedChangedNames := s.owner.publishedChangedNames ++ [n]
        importsModifiedCount := s.owner.importsModifiedCount + 1
        resourceModifiedNames := s.owner.resourceModifiedNames ++ [n] } }

/-- Python slice `l[:-k]`: for `k = 0` this is `l[:0] = []`, not `l`. -/
def pySliceUpToNeg (l : Str) (k : Nat) : Str :=
  if k = 0 then [] else l.take (l.length - k)

/-- `ResourceImportController.contains_filename`: `self.name.endswith(filename)`. -/
def containsFilename (s : ResourceImport) (filename : Str) : Bool :=
  List.isSuffixOf filename s.name

/-- `ResourceImportController.change_name`: rewrite only when the current name
ends with `old_name`, via `set_value(self.name[:-len(old_name)] + new_name)`. -/
def changeName (s : ResourceImport) (oldName newName : Str) : ResourceImport :=
  if containsFilename s oldName then
    importSetValueNameOnly s (pySliceUpToNeg s.name oldName.length ++ newName)
  else s

/-- `ResourceImportController.get_imported_controller`: resolve through the
owner's factory only when the `_resolved_import` flag is down, cache the
result (whatever it is) and raise the flag; otherwise return the cached
attribute.  The factory is an oracle `env` indexed by the consultation
counter, so that distinct consultations may observe different results. -/
def getImportedController (env : Nat → Option Nat) (s : ResourceImport) :
    Option Nat × ResourceImport :=
  if s.resolvedImport = false then
    let r := env s.factoryCalls
    (r, { s with
           cachedImported := some r
           resolvedImport := true
           factoryCalls := s.factoryCalls + 1 })
  else
    match s.cachedImported with
    | some r => (r, s)
    | none => (none, s)

/-- `ResourceImportController.unresolve`: clear the resolved flag only. -/
def unresolve (s : ResourceImport) : ResourceImport :=
  { s with resolvedImport := false }

/-! ## DocumentationController: newline escaping and unescaping

`_unescape_newlines_and_handle_escaped_backslashes` applies, in order, the
three Python substitutions `re.sub(r'(\\+)r\\n', repl)`,
`re.sub(r'(\\+)n', repl)` and `re.sub(r'(\\+)r', repl)` where `repl` keeps an
even-length backslash run with its suffix untouched and turns an odd-length
run plus suffix into one fewer backslash followed by a literal newline.
Each `subK` function below embeds one such pass: Python's `re.sub` scans left
to right, the greedy `(\\+)` group captures the whole maximal backslash run
(tracked by the accumulator argument), matches do not overlap, and
replacement text is not rescanned within the same pass. -/

/-- One `re.sub` pass for `(\\+)r\\n` (a backslash run, then the three
characters `r`, `\`, `n`).  The `Nat` argument is the length of the pending
backslash run. -/
def sub1 : Nat → Str → Str
  | k, [] => List.replicate k '\\'
  | k, '\\' :: cs => sub1 (k + 1) cs
  | k, 'r' :: '\\' :: 'n' :: cs =>
      if 0 < k then
        (if k % 2 = 1 then List.replicate (k - 1) '\\' ++ ['\n']
         else List.replicate k '\\' ++ ['r', '\\', 'n']) ++ sub1 0 cs
      else 'r' :: sub1 0 ('\\' :: 'n' :: cs)
  | k, c :: cs => List.replicate k '\\' ++ c :: sub1 0 cs

/-- One `re.sub` pass for `(\\+)n`. -/
def sub2 : Nat → Str → Str
  | k, [] => List.replicate k '\\'
  | k, '\\' :: cs => sub2 (k + 1) cs
  | k, 'n' :: cs =>
      if 0 < k then
        (if k % 2 = 1 then List.replicate (k - 1) '\\' ++ ['\n']
         else List.replicate k '\\' ++ ['n']) ++ sub2 0 cs
      else 'n' :: sub2 0 cs
  | k, c :: cs => List.replicate k '\\' ++ c :: sub2 0 cs

/-- One `re.sub` pass for `(\\+)r`. -/
def sub3 : Nat → Str → Str
  | k, [] => List.replicate k '\\'
  | k, '\\' :: cs => sub3 (k + 1) cs
  | k, 'r' :: cs =>
      if 0 < k then
        (if k % 2 = 1 then List.replicate (k - 1) '\\' ++ ['\n']
         else List.replicate k '\\' ++ ['r']) ++ sub3 0 cs
      else 'r' :: sub3 0 cs
  | k, c :: cs => List.replicate k '\\' ++ c :: sub3 0 cs

/-- `DocumentationController._unescape_newlines_and_handle_escaped_backslashes`:
the three regexp passes in source order (`r\n` first, then `n`, then `r`). -/
def unescapeNewlines (item : Str) : Str :=
  sub3 0 (sub2 0 (sub1 0 item))

/-- Python `item.replace('\r\n', '\\n')`: left-to-right, non-overlapping. -/
def replCRLF : Str → Str
  | [] => []
  | '\r' :: '\n' :: cs => '\\' :: 'n' :: replCRLF cs
  | c :: cs => c :: replCRLF cs

/-- Python `item.replace('\n', '\\n')`. -/
def replLF : Str → Str
  | [] => []
  | '\n' :: cs => '\\' :: 'n' :: replLF cs
  | c :: cs => c :: replLF cs

/-- Python `item.replace('\r', '\\n')`. -/
def replCR : Str → Str
  | [] => []
  | '\r' :: cs => '\\' :: 'n' :: replCR cs
  | c :: cs => c :: replCR cs

/-- `DocumentationController._escape_newlines_and_leading_hash`: replace each
newline variant (`\r\n`, `\n`, `\r`, in that order) by the two characters
`\n`, then prefix one backslash when the stripped result starts with `#`. -/
def escapeNewlinesAndLeadingHash (item : Str) : Str :=
  let i1 := replCRLF item
  let i2 := replLF i1
  let i3 := replCR i2
  if (pyStrip i3).head? = some '#' then '\\' :: i3 else i3

/-! ## Setting controllers with the change-guarded `set_value` -/

/-- The documentation controller: `self._doc` (which is also `self._data`)
holds the raw documentation string. -/
structure DocCtrl where
  docValue : Str
  owner : Owner
deriving DecidableEq

/-- Base `_SettingController._changed` for documentation: raw comparison
`value != self._data.value`. -/
def docChanged (s : DocCtrl) (v : Str) : Prop := v ≠ s.docValue

instance (s : DocCtrl) (v : Str) : Decidable (docChanged s v) := by
  unfold docChanged; infer_instance

/-- Base `_set` for documentation: `self._data.value = value`. -/
def docSet (s : DocCtrl) (v : Str) : DocCtrl := { s with docValue := v }

/-- `set_value` on a documentation controller: guard, write through `_set`,
mark dirty. -/
def docSetValue (s : DocCtrl) (v : Str) : DocCtrl :=
  if docChanged s v then
    let s1 := docSet s v
    { s1 with owner := markDirty s1.owner }
  else s

/-- The `editable_value` getter. -/
def docEditableValue (s : DocCtrl) : Str := unescapeNewlines s.docValue

/-- The `editable_value` setter:
`self.set_value(self._escape_newlines_and_leading_hash(value))`. -/
def docSetEditableValue (s : DocCtrl) (v : Str) : DocCtrl :=
  docSetValue s (escapeNewlinesAndLeadingHash v)

/-! ## FixtureController -/

/-- A fixture controller: the fixture record's `name` (initially `None` in the
robot parsing model, hence the `Option`) and `args`. -/
structure FixtureCtrl where
  fixtureName : Option Str
  fixtureArgs : List Str
  owner : Owner
deriving DecidableEq

/-- `FixtureController._parse`: separator split; first token is the keyword
name, the rest are arguments; an empty split yields `('', [])`. -/
def fixtureParse (v : Str) : Str × List Str :=
  match splitValue v with
  | [] => ([], [])
  | x :: xs => (x, xs)

/-- `FixtureController._changed`: compares both parsed fields. -/
def fixtureChanged (s : FixtureCtrl) (v : Str) : Prop :=
  s.fixtureName ≠ some (fixtureParse v).1 ∨ s.fixtureArgs ≠ (fixtureParse v).2

instance (s : FixtureCtrl) (v : Str) : Decidable (fixtureChanged s v) := by
  unfold fixtureChanged; infer_instance

/-- `FixtureController._set`. -/
def fixtureSet (s : FixtureCtrl) (v : Str) : FixtureCtrl :=
  { s with fixtureName := some (fixtureParse v).1, fixtureArgs := (fixtureParse v).2 }

/-- `set_value` on a fixture controller. -/
def fixtureSetValue (s : FixtureCtrl) (v : Str) : FixtureCtrl :=
  if fixtureChanged s v then
    let s1 := fixtureSet s v
    { s1 with owner := markDirty s1.owner }
  else s

/-! ## Tag model and TagsController -/

/-- The chain of parent data files, walked by `ForceTagsController`: a file is
either a root (its `parent` attribute is `None`) or has a parent file.  Each
level carries its setting table's `force_tags.value` (`None` when unset). -/
inductive DataFile where
  | root : Option (List Str) → DataFile
  | child : Option (List Str) → DataFile → DataFile
deriving DecidableEq

/-- `obj._setting_table.force_tags.value` of a level. -/
def DataFile.fileForceTags : DataFile → Option (List Str)
  | .root ft => ft
  | .child ft _ => ft

/-- `obj.parent` of a level. -/
def DataFile.parentFile : DataFile → Option DataFile
  | .root _ => none
  | .child _ p => some p

/-- The kind of a tag value object: `Tag`, `ForcedTag` or `DefaultTag`. -/
inductive TagKind where
  | plain : TagKind
  | forced : TagKind
  | dflt : TagKind
deriving DecidableEq

/-- A tag value object (`robotide.controller.tags`, not under `src/`; modelled
from the spec): a name, an optional positional index, and a back-reference to
the controller it came from.  For forced tags gathered across the hierarchy
the back-reference is represented by the level's data file. -/
structure TagV where
  kind : TagKind
  name : Str
  index : Option Nat
  context : Option DataFile
deriving DecidableEq

/-- A tags controller.  `tagsValue` is `self._tags.value` (`None` when unset);
the owning entity's effective forced and default tags — produced by the
parent's `force_tags` and `default_tags` controllers, external to this
controller — are carried as plain lists. -/
structure TagsCtrl where
  tagsValue : Option (List Str)
  parentForceTags : List TagV
  parentDefaultTags : List TagV
  owner : Owner
deriving DecidableEq

/-- `TagsController._changed`: parsed-sequence comparison. -/
def tagsChanged (s : TagsCtrl) (v : Str) : Prop :=
  s.tagsValue ≠ some (splitValue v)

instance (s : TagsCtrl) (v : Str) : Decidable (tagsChanged s v) := by
  unfold tagsChanged; infer_instance

/-- `TagsController._set`. -/
def tagsSet (s : TagsCtrl) (v : Str) : TagsCtrl :=
  { s with tagsValue := some (splitValue v) }

/-- `set_value` on a tags controller. -/
def tagsSetValue (s : TagsCtrl) (v : Str) : TagsCtrl :=
  if tagsChanged s v then
    let s1 := tagsSet s v
    { s1 with owner := markDirty s1.owner }
  else s

/-- `TagsController.__iter__`: forced tags first, then the default tags when
the local value is unset, a single synthetic empty `Tag` when it is an empty
list, and otherwise the local tags with their enumeration indices. -/
def tagsIter (s : TagsCtrl) : List TagV :=
  match s.tagsValue with
  | none => s.parentForceTags ++ s.parentDefaultTags
  | some ts =>
      if ts.length = 0 then
        s.parentForceTags ++ [{ kind := .plain, name := [], index := none, context := none }]
      else
        s.parentForceTags ++
          ts.enum.map (fun it => { kind := .plain, name := it.2, index := some it.1,
                                   context := none })

/-- `ForceTagsController._gather_from_data`: nothing when the level's value is
unset, otherwise each tag as a `ForcedTag` carrying its index and the level as
context. -/
def gatherFromData (tags : Option (List Str)) (lvl : DataFile) : List TagV :=
  match tags with
  | none => []
  | some ts =>
      ts.enum.map (fun it => { kind := .forced, name := it.2, index := some it.1,
                               context := some lvl })

/-- `ForceTagsController._recursive_gather_from` restricted to a present file:
gather this level and recurse into the parent, prepending ancestors. -/
def gatherUp : DataFile → List TagV → List TagV
  | .root ft, res => gatherFromData ft (.root ft) ++ res
  | .child ft p, res => gatherUp p (gatherFromData ft (.child ft p) ++ res)

/-- `ForceTagsController._recursive_gather_from(obj, result)` with its
`obj is None` base case. -/
def recursiveGatherFrom : Option DataFile → List TagV → List TagV
  | none, res => res
  | some f, res => gatherUp f res

/-- `ForceTagsController.__iter__` for a controller owned by data file `f`:
`self._recursive_gather_from(self.parent, [])`. -/
def forceTagsIterate (f : DataFile) : List TagV :=
  recursiveGatherFrom (some f) []

/-! ## TimeoutController -/

/-- Python `value.split('|', 1)`: the part before the first pipe and, when a
pipe exists, the remainder. -/
def splitOncePipe : Str → Str × Option Str
  | [] => ([], none)
  | '|' :: rest => ([], some rest)
  | c :: rest =>
      let r := splitOncePipe rest
      (c :: r.1, r.2)

/-- `TimeoutController._parse`: duration is the trimmed first part, message
the trimmed second part when present, else empty. -/
def timeoutParse (v : Str) : Str × Str :=
  match splitOncePipe v with
  | (a, none) => (pyStrip a, [])
  | (a, some m) => (pyStrip a, pyStrip m)

/-- A timeout controller: the record's `value` and `message` fields. -/
structure TimeoutCtrl where
  timeoutValue : Option Str
  timeoutMessage : Option Str
  owner : Owner
deriving DecidableEq

/-- `TimeoutController._changed`: compares both parsed fields. -/
def timeoutChanged (s : TimeoutCtrl) (v : Str) : Prop :=
  s.timeoutValue ≠ some (timeoutParse v).1 ∨ s.timeoutMessage ≠ some (timeoutParse v).2

instance (s : TimeoutCtrl) (v : Str) : Decidable (timeoutChanged s v) := by
  unfold timeoutChanged; infer_instance

/-- `TimeoutController._set`. -/
def timeoutSet (s : TimeoutCtrl) (v : Str) : TimeoutCtrl :=
  { s with timeoutValue := some (timeoutParse v).1,
           timeoutMessage := some (timeoutParse v).2 }

/-- `set_value` on a timeout controller. -/
def timeoutSetValue (s : TimeoutCtrl) (v : Str) : TimeoutCtrl :=
  if timeoutChanged s v then
    let s1 := timeoutSet s v
    { s1 with owner := markDirty s1.owner }
  else s

/-! ## TemplateController -/

/-- A template controller: the record's value (`None` when unset) and the
possibly attached comment, cleared by `clear`. -/
structure TemplCtrl where
  templateValue : Option Str
  comment : Option Str
  owner : Owner
deriving DecidableEq

/-- Base `_SettingController._changed` for templates: raw comparison against
`self._data.value`. -/
def templChanged (s : TemplCtrl) (v : Str) : Prop := s.templateValue ≠ some v

instance (s : TemplCtrl) (v : Str) : Decidable (templChanged s v) := by
  unfold templChanged; infer_instance

/-- `TemplateController._set`: the base `_set` plus
`self._parent.notify_steps_changed()`. -/
def templSet (s : TemplCtrl) (v : Str) : TemplCtrl :=
  { s with templateValue := some v, owner := notifyStepsChanged s.owner }

/-- `set_value` on a template controller. -/
def templSetValue (s : TemplCtrl) (v : Str) : TemplCtrl :=
  if templChanged s v then
    let s1 := templSet s v
    { s1 with owner := markDirty s1.owner }
  else s

/-- `TemplateController.clear`: the base `clear` (reset value, clear comment,
mark dirty) plus `notify_steps_changed`. -/
def templClear (s : TemplCtrl) : TemplCtrl :=
  { s with templateValue := none, comment := none,
           owner := notifyStepsChanged (markDirty s.owner) }

/-- `TemplateController.replace_keyword`: write the new name and mark dirty;
no steps-changed notification is issued here. -/
def templReplaceKeyword (s : TemplCtrl) (newName : Str) : TemplCtrl :=
  { s with templateValue := some newName, owner := markDirty s.owner }

/-! ## ArgumentsController and ReturnValueController -/

/-- An arguments controller: `self._args.value`. -/
structure ArgsCtrl where
  argsValue : Option (List Str)
  owner : Owner
deriving DecidableEq

/-- `ArgumentsController._changed`: parsed-sequence comparison. -/
def argsChanged (s : ArgsCtrl) (v : Str) : Prop :=
  s.argsValue ≠ some (splitValue v)

instance (s : ArgsCtrl) (v : Str) : Decidable (argsChanged s v) := by
  unfold argsChanged; infer_instance

/-- `ArgumentsController._set`: write the parsed sequence and notify
settings-changed. -/
def argsSet (s : ArgsCtrl) (v : Str) : ArgsCtrl :=
  { s with argsValue := some (splitValue v), owner := notifySettingsChanged s.owner }

/-- `set_value` on an arguments controller. -/
def argsSetValue (s : ArgsCtrl) (v : Str) : ArgsCtrl :=
  if argsChanged s v then
    let s1 := argsSet s v
    { s1 with owner := markDirty s1.owner }
  else s

/-- A return-value controller: `self._return.value`. -/
structure ReturnCtrl where
  returnValue : Option (List Str)
  owner : Owner
deriving DecidableEq

/-- `ReturnValueController._changed`. -/
def returnChanged (s : ReturnCtrl) (v : Str) : Prop :=
  s.returnValue ≠ some (splitValue v)

instance (s : ReturnCtrl) (v : Str) : Decidable (returnChanged s v) := by
  unfold returnChanged; infer_instance

/-- `ReturnValueController._set`. -/
def returnSet (s : ReturnCtrl) (v : Str) : ReturnCtrl :=
  { s with returnValue := some (splitValue v) }

/-- `set_value` on a return-value controller. -/
def returnSetValue (s : ReturnCtrl) (v : Str) : ReturnCtrl :=
  if returnChanged s v then
    let s1 := returnSet s v
    { s1 with owner := markDirty s1.owner }
  else s

/-! ## MetadataController -/

/-- A metadata controller: the record's `name` and `value`. -/
structure MetaCtrl where
  metaName : Str
  metaValue : Str
  owner : Owner
deriving DecidableEq

/-- `MetadataController.set_value(name, value)`: writes both fields and calls
`self._parent.mark_dirty()` unconditionally — there is no change guard. -/
def metadataSetValue (s : MetaCtrl) (n v : Str) : MetaCtrl :=
  { s with metaName := n, metaValue := v, owner := markDirty s.owner }

/-! ## Specification-side definitions

These follow the spec's words, for comparison with the definitions embedded
from the source above. -/

/-- Spec side: single-pass newline normalisation — each `\r\n`, `\n` or `\r`
becomes the two-character escape `\n`. -/
def normNL : Str → Str
  | [] => []
  | '\r' :: '\n' :: cs => '\\' :: 'n' :: normNL cs
  | '\n' :: cs => '\\' :: 'n' :: normNL cs
  | '\r' :: cs => '\\' :: 'n' :: normNL cs
  | c :: cs => c :: normNL cs

/-- Spec side: normalise the newlines, then prefix one backslash when the
whitespace-stripped result begins with `#`. -/
def specEscape (t : Str) : Str :=
  let u := normNL t
  if (pyStrip u).head? = some '#' then '\\' :: u else u

/-- Spec side: the ancestor chain of a data file, outermost (topmost) ancestor
first and the file itself last. -/
def ancestorChain : DataFile → List DataFile
  | .root ft => [.root ft]
  | .child ft p => ancestorChain p ++ [.child ft p]

/-- Spec side: one level's force-tag contribution — nothing when the level's
value is unset, otherwise its tags as `ForcedTag`s carrying the level as
context. -/
def levelForceTags (f : DataFile) : List TagV :=
  match f.fileForceTags with
  | none => []
  | some ts =>
      ts.enum.map (fun it => { kind := .forced, name := it.2, index := some it.1,
                               context := some f })

/-- Spec side: the concatenation of the per-level force-tag contributions. -/
def concatLevelForceTags (fs : List DataFile) : List TagV :=
  fs.foldr (fun f acc => levelForceTags f ++ acc) []

/-- Spec side: the single-pass occurrence rewriter for the documentation
unescape grammar, scanning any stored value left to right.  The `Nat`
argument is the length of the pending maximal backslash run.  Each occurrence
of a run of `k ≥ 1` backslashes immediately followed by a newline-escape
letter sequence (`n`, `r`, or `r`-backslash-`n`) becomes `k - 1` backslashes
plus a literal newline when `k` is odd; when `k` is even, `n` and `r`
occurrences are kept unchanged, while an `r`-backslash-`n` occurrence keeps
its backslashes and the `r` but its trailing backslash-`n` still becomes a
newline.  Characters outside occurrences pass through unchanged. -/
def specUnescapeAux : Nat → Str → Str
  | k, [] => List.replicate k '\\'
  | k, '\\' :: cs => specUnescapeAux (k + 1) cs
  | k, 'r' :: '\\' :: 'n' :: cs =>
      if 0 < k then
        (if k % 2 = 1 then List.replicate (k - 1) '\\' ++ '\n' :: specUnescapeAux 0 cs
         else List.replicate k '\\' ++ 'r' :: '\n' :: specUnescapeAux 0 cs)
      else 'r' :: specUnescapeAux 0 ('\\' :: 'n' :: cs)
  | k, 'n' :: cs =>
      if 0 < k then
        (if k % 2 = 1 then List.replicate (k - 1) '\\' ++ '\n' :: specUnescapeAux 0 cs
         else List.replicate k '\\' ++ 'n' :: specUnescapeAux 0 cs)
      else 'n' :: specUnescapeAux 0 cs
  | k, 'r' :: cs =>
      if 0 < k then
        (if k % 2 = 1 then List.replicate (k - 1) '\\' ++ '\n' :: specUnescapeAux 0 cs
         else List.replicate k '\\' ++ 'r' :: specUnescapeAux 0 cs)
      else 'r' :: specUnescapeAux 0 cs
  | k, c :: cs => List.replicate k '\\' ++ c :: specUnescapeAux 0 cs

/-- Spec side: the per-occurrence rewriting of a whole stored value. -/
def specUnescape (t : Str) : Str := specUnescapeAux 0 t

/-! ## Helper lemmas -/

theorem levelForceTags_eq_gather (f : DataFile) :
    levelForceTags f = gatherFromData f.fileForceTags f := rfl

theorem concatLevelForceTags_append (xs ys : List DataFile) :
    concatLevelForceTags (xs ++ ys) =
      concatLevelForceTags xs ++ concatLevelForceTags ys := by
  induction xs with
  | nil => simp [concatLevelForceTags]
  | cons x xs ih => simp [concatLevelForceTags, List.foldr_cons] at ih ⊢
                    simp [ih, List.append_assoc]

theorem gatherUp_eq (f : DataFile) :
    ∀ acc : List TagV, gatherUp f acc = concatLevelForceTags (ancestorChain f) ++ acc := by
  induction f with
  | root ft =>
      intro acc
      simp only [gatherUp, ancestorChain, concatLevelForceTags, List.foldr_cons,
        List.foldr_nil, List.append_nil]
      rfl
  | child ft p ih =>
      intro acc
      simp only [gatherUp, ancestorChain, ih, concatLevelForceTags_append,
        List.append_assoc]
      simp only [concatLevelForceTags, List.foldr_cons, List.foldr_nil,
        List.append_nil]
      rfl

/-! ## Claims -/

/-- C9: two variable controllers are equal exactly when they are the same
object or their wrapped variable records compare equal; comparison against
`None` or against an object of another class yields not-equal (totally,
without faulting); and hashing is consistent with record equality. -/
theorem C9_variable_equality :
    (∀ c1 c2 : VariableCtrl,
        variableEq c1 (.varCtrlObj c2) = true ↔
          (c1.objId = c2.objId ∨ c1.varRec = c2.varRec)) ∧
    (∀ c : VariableCtrl, variableEq c .noneObj = false) ∧
    (∀ (c : VariableCtrl) (k : Nat), variableEq c (.otherClassObj k) = false) ∧
    (∀ c1 c2 : VariableCtrl, c1.varRec = c2.varRec →
        variableHash c1 = variableHash c2) := by
  refine ⟨?_, fun _ => rfl, fun _ _ => rfl, ?_⟩
  · intro c1 c2
    by_cases h : c1.objId = c2.objId <;> simp [variableEq, h]
  · intro c1 c2 h
    unfold variableHash
    rw [h]

def varDemoA : VariableCtrl :=
  { objId := 0, varRec := { name := ['x'], value := [['1']], comment := none } }

def varDemoB : VariableCtrl :=
  { objId := 1, varRec := { name := ['x'], value := [['1']], comment := none } }

theorem C9_variable_equality_witness :
    variableEq varDemoA (.varCtrlObj varDemoB) = true ∧
    variableHash varDemoA = variableHash varDemoB := by
  constructor
  · exact (C9_variable_equality.1 varDemoA varDemoB).mpr (Or.inr rfl)
  · exact C9_variable_equality.2.2.2 varDemoA varDemoB rfl

/-- C10: the first `get_imported_controller` call resolves through the
owner's factory and caches whatever the factory returned (a null result
included); while the resolved flag stays up, every call returns the cached
object without consulting the factory; `unresolve` clears the flag, after
which the next call performs a fresh resolution. -/
theorem C10_import_resolution_cache :
    (∀ (env : Nat → Option Nat) (s : ResourceImport), s.resolvedImport = false →
        getImportedController env s =
          (env s.factoryCalls,
           { s with cachedImported := some (env s.factoryCalls),
                    resolvedImport := true,
                    factoryCalls := s.factoryCalls + 1 })) ∧
    (∀ (env : Nat → Option Nat) (s : ResourceImport) (r : Option Nat),
        s.resolvedImport = true → s.cachedImported = some r →
        getImportedController env s = (r, s)) ∧
    (∀ s : ResourceImport, (unresolve s).resolvedImport = false ∧
        (unresolve s).cachedImported = s.cachedImported ∧
        ∀ env : Nat → Option Nat,
          (getImportedController env (unresolve s)).1 = env s.factoryCalls) := by
  refine ⟨?_, ?_, ?_⟩
  · intro env s h
    simp [getImportedController, h]
  · intro env s r h1 h2
    simp [getImportedController, h1, h2]
  · intro s
    refine ⟨rfl, rfl, ?_⟩
    intro env
    simp [getImportedController, unresolve]

def importDemo : ResourceImport :=
  { name := "res.txt".data, args := [], aliasName := [],
    owner := { dirtyCount := 0, importsModifiedCount := 0,
               resourceModifiedNames := [], publishedChangedNames := [] },
    resolvedImport := false, cachedImported := none, factoryCalls := 0 }

theorem C10_import_resolution_cache_witness :
    getImportedController (fun _ => none) importDemo =
      (none, { importDemo with cachedImported := some none,
                               resolvedImport := true, factoryCalls := 1 }) ∧
    getImportedController (fun _ => none)
        { importDemo with cachedImported := some none,
                          resolvedImport := true, factoryCalls := 1 } =
      (none, { importDemo with cachedImported := some none,
                               resolvedImport := true, factoryCalls := 1 }) := by
  constructor
  · exact C10_import_resolution_cache.1 (fun _ => none) importDemo rfl
  · exact C10_import_resolution_cache.2.1 (fun _ => none) _ none rfl rfl

/-- C2: iterating a `ForceTagsController` owned by data file `f` yields the
concatenation — outermost (topmost) ancestor level first, `f`'s own level
last — of each level's force tags wrapped as `ForcedTag`s carrying the level
as context, a level with an unset value contributing nothing. -/
theorem C2_force_tags_iteration (f : DataFile) :
    forceTagsIterate f = concatLevelForceTags (ancestorChain f) := by
  show gatherUp f [] = concatLevelForceTags (ancestorChain f)
  rw [gatherUp_eq]
  simp

/-- C3: iterating a `TagsController` yields the owning hierarchy's forced tags
first, then the default tags when the local value is unset, a single synthetic
empty tag when the local value is an empty list, and otherwise the local tags
with their stored positional indices. -/
theorem C3_tags_iteration (s : TagsCtrl) :
    (s.tagsValue = none →
        tagsIter s = s.parentForceTags ++ s.parentDefaultTags) ∧
    (s.tagsValue = some [] →
        tagsIter s = s.parentForceTags ++
          [{ kind := .plain, name := [], index := none, context := none }]) ∧
    (∀ ts : List Str, s.tagsValue = some ts → ts ≠ [] →
        tagsIter s = s.parentForceTags ++
          ts.enum.map (fun it => { kind := .plain, name := it.2,
                                   index := some it.1, context := none })) := by
  refine ⟨?_, ?_, ?_⟩
  · intro h; simp [tagsIter, h]
  · intro h; simp [tagsIter, h]
  · intro ts h hne
    have : ts.length ≠ 0 := by simpa [List.length_eq_zero] using hne
    simp [tagsIter, h, this]

def tagsDemo : TagsCtrl :=
  { tagsValue := some [],
    parentForceTags := [{ kind := .forced, name := ['f'], index := some 0,
                          context := some (.root (some [['f']])) }],
    parentDefaultTags := [],
    owner := { dirtyCount := 0, settingsChangedCount := 0, stepsChangedCount := 0 } }

theorem C3_tags_iteration_witness :
    tagsIter tagsDemo = tagsDemo.parentForceTags ++
      [{ kind := .plain, name := [], index := none, context := none }] :=
  (C3_tags_iteration tagsDemo).2.1 rfl

def templDemo : TemplCtrl :=
  { templateValue := some "Old Kw".data, comment := none,
    owner := { dirtyCount := 0, settingsChangedCount := 0, stepsChangedCount := 0 } }

/-- C4 counterexample: `TemplateController.replace_keyword` writes the new
name and marks the owner dirty but does not notify that the step sequence
changed — the steps-changed count stays at zero. -/
theorem C4_replace_keyword_counterexample :
    (templReplaceKeyword templDemo "New Kw".data).owner.stepsChangedCount
        = templDemo.owner.stepsChangedCount ∧
    templDemo.owner.stepsChangedCount = 0 ∧
    (templReplaceKeyword templDemo "New Kw".data).templateValue
        = some "New Kw".data ∧
    (templReplaceKeyword templDemo "New Kw".data).owner.dirtyCount = 1 := by
  refine ⟨rfl, rfl, rfl, rfl⟩

/-- C4 amended: `_set` (reached through a value-changing `set_value`) and
`clear` notify the owner that its step sequence changed, in addition to the
base behaviour (write/reset, comment clearing and dirty-marking);
`replace_keyword` only writes the template value and marks the owner dirty,
without a steps-changed notification. -/
theorem C4_template_steps_notifications (s : TemplCtrl) (v : Str) :
    ((templSetValue s v).owner.stepsChangedCount =
        if s.templateValue = some v then s.owner.stepsChangedCount
        else s.owner.stepsChangedCount + 1) ∧
    ((templSetValue s v).owner.dirtyCount =
        if s.templateValue = some v then s.owner.dirtyCount
        else s.owner.dirtyCount + 1) ∧
    ((templSetValue s v).templateValue =
        if s.templateValue = some v then s.templateValue else some v) ∧
    ((templClear s).owner.stepsChangedCount = s.owner.stepsChangedCount + 1) ∧
    ((templClear s).templateValue = none) ∧
    ((templClear s).comment = none) ∧
    ((templClear s).owner.dirtyCount = s.owner.dirtyCount + 1) ∧
    ((templReplaceKeyword s v).owner.stepsChangedCount =
        s.owner.stepsChangedCount) ∧
    ((templReplaceKeyword s v).templateValue = some v) ∧
    ((templReplaceKeyword s v).owner.dirtyCount = s.owner.dirtyCount + 1) := by
  by_cases h : s.templateValue = some v <;>
    simp [templSetValue, templSet, templClear, templReplaceKeyword, templChanged,
      markDirty, notifyStepsChanged, h]

def metaDemo : MetaCtrl :=
  { metaName := ['m'], metaValue := ['v'],
    owner := { dirtyCount := 0, settingsChangedCount := 0, stepsChangedCount := 0 } }

/-- C7 counterexample: `MetadataController.set_value` carries no change guard,
so calling it twice in a row with the same name and value marks the owner
dirty twice, not exactly once, and the second call is not a no-op. -/
theorem C7_metadata_double_dirty_counterexample :
    (metadataSetValue (metadataSetValue metaDemo ['m'] ['v']) ['m'] ['v']).owner.dirtyCount = 2 ∧
    metaDemo.owner.dirtyCount = 0 ∧
    metadataSetValue (metadataSetValue metaDemo ['m'] ['v']) ['m'] ['v']
        ≠ metadataSetValue metaDemo ['m'] ['v'] := by
  refine ⟨rfl, rfl, by decide⟩

/-- C7 amended: for every setting controller whose `set_value` goes through
the change guard of the base single-string protocol (documentation, template,
fixture, tags, timeout, arguments, return value), calling `set_value` twice
in a row with the same value triggers dirty-marking and write-through exactly
once: the second call is a no-op because the first write established
parsed-form equality.  `MetadataController` (and `VariableController`)
override `set_value` without the guard and mark the owner dirty on every
call. -/
theorem C7_set_value_idempotent (v : Str) :
    (∀ s : DocCtrl, docSetValue (docSetValue s v) v = docSetValue s v) ∧
    (∀ s : TemplCtrl, templSetValue (templSetValue s v) v = templSetValue s v) ∧
    (∀ s : FixtureCtrl, fixtureSetValue (fixtureSetValue s v) v = fixtureSetValue s v) ∧
    (∀ s : TagsCtrl, tagsSetValue (tagsSetValue s v) v = tagsSetValue s v) ∧
    (∀ s : TimeoutCtrl, timeoutSetValue (timeoutSetValue s v) v = timeoutSetValue s v) ∧
    (∀ s : ArgsCtrl, argsSetValue (argsSetValue s v) v = argsSetValue s v) ∧
    (∀ s : ReturnCtrl, returnSetValue (returnSetValue s v) v = returnSetValue s v) := by
  refine ⟨?_, ?_, ?_, ?_, ?_, ?_, ?_⟩
  · intro s
    by_cases h : v = s.docValue <;>
      simp [docSetValue, docChanged, docSet, h]
  · intro s
    by_cases h : s.templateValue = some v <;>
      simp [templSetValue, templChanged, templSet, h]
  · intro s
    by_cases h1 : s.fixtureName = some (fixtureParse v).1 <;>
      by_cases h2 : s.fixtureArgs = (fixtureParse v).2 <;>
        simp [fixtureSetValue, fixtureChanged, fixtureSet, h1, h2]
  · intro s
    by_cases h : s.tagsValue = some (splitValue v) <;>
      simp [tagsSetValue, tagsChanged, tagsSet, h]
  · intro s
    by_cases h1 : s.timeoutValue = some (timeoutParse v).1 <;>
      by_cases h2 : s.timeoutMessage = some (timeoutParse v).2 <;>
        simp [timeoutSetValue, timeoutChanged, timeoutSet, h1, h2]
  · intro s
    by_cases h : s.argsValue = some (splitValue v) <;>
      simp [argsSetValue, argsChanged, argsSet, h]
  · intro s
    by_cases h : s.returnValue = some (splitValue v) <;>
      simp [returnSetValue, returnChanged, returnSet, h]

def resImportDemo : ResourceImport :=
  { name := "a.txt".data, args := [], aliasName := [],
    owner := { dirtyCount := 0, importsModifiedCount := 0,
               resourceModifiedNames := [], publishedChangedNames := [] },
    resolvedImport := false, cachedImported := none, factoryCalls := 0 }

/-- C8 counterexample: with an empty `old_name`, every name ends with it, yet
the code replaces the entire name (the Python slice `self.name[:-0]` is the
empty string) instead of replacing the trailing empty occurrence, which would
append `new_name` to the current name. -/
theorem C8_change_name_counterexample :
    containsFilename resImportDemo [] = true ∧
    (changeName resImportDemo [] ['b']).name ≠ resImportDemo.name ++ ['b'] ∧
    (changeName resImportDemo [] ['b']).name = ['b'] := by decide

/-- C8 amended: `change_name(old_name, new_name)` is a no-op when the current
name does not end with `old_name`; when it does and `old_name` is nonempty,
the trailing occurrence of `old_name` is replaced by `new_name` and the
result is written through `set_value`; when `old_name` is empty the whole
name is replaced by `new_name` (Python's `name[:-0]` is empty). -/
theorem C8_change_name (s : ResourceImport) (oldN newN : Str) :
    (containsFilename s oldN = false → changeName s oldN newN = s) ∧
    (containsFilename s oldN = true → oldN ≠ [] →
        s.name = s.name.take (s.name.length - oldN.length) ++ oldN ∧
        changeName s oldN newN =
          importSetValueNameOnly s
            (s.name.take (s.name.length - oldN.length) ++ newN)) ∧
    (changeName s [] newN = importSetValueNameOnly s newN) := by
  refine ⟨?_, ?_, ?_⟩
  · intro h
    simp [changeName, h]
  · intro h hne
    have hsuf : oldN <:+ s.name := by
      unfold containsFilename at h
      exact List.isSuffixOf_iff_suffix.mp h
    obtain ⟨t, ht⟩ := hsuf
    have hlen : s.name.length - oldN.length = t.length := by
      rw [← ht]; simp
    have htake : s.name.take (s.name.length - oldN.length) = t := by
      rw [hlen, ← ht, List.take_left]
    constructor
    · rw [htake, ht]
    · have hk : oldN.length ≠ 0 := by
        simpa [List.length_eq_zero] using hne
      simp [changeName, h, pySliceUpToNeg, hk, htake]
  · have h0 : containsFilename s [] = true := by
      unfold containsFilename
      exact List.isSuffixOf_iff_suffix.mpr List.nil_suffix
    simp [changeName, h0, pySliceUpToNeg]

theorem markDirty_dirtyCount (o : Owner) :
    (markDirty o).dirtyCount = o.dirtyCount + 1 := rfl

theorem notifySettingsChanged_dirtyCount (o : Owner) :
    (notifySettingsChanged o).dirtyCount = o.dirtyCount := rfl

theorem notifyStepsChanged_dirtyCount (o : Owner) :
    (notifyStepsChanged o).dirtyCount = o.dirtyCount := rfl

/-- C1: for every setting controller taking the single-string `set_value(v)`
(documentation, template, fixture, tags, timeout, arguments, return value),
`set_value` is a no-op exactly when the semantically-parsed form of `v` equals
the record's current parsed value, and otherwise writes through the subclass's
`_set` and marks the owner dirty; for the split-based controllers the change
test depends only on the split token sequence, never on the raw string. -/
theorem C1_set_value_change_guard :
    (∀ (s : DocCtrl) (v : Str),
        (docSetValue s v = s ↔ v = s.docValue) ∧
        (¬ v = s.docValue →
          docSetValue s v = { docValue := v, owner := markDirty s.owner })) ∧
    (∀ (s : TemplCtrl) (v : Str),
        (templSetValue s v = s ↔ s.templateValue = some v) ∧
        (¬ s.templateValue = some v →
          templSetValue s v = { s with templateValue := some v,
                                       owner := markDirty (notifyStepsChanged s.owner) })) ∧
    (∀ (s : FixtureCtrl) (v : Str),
        (fixtureSetValue s v = s ↔
          (s.fixtureName = some (fixtureParse v).1 ∧ s.fixtureArgs = (fixtureParse v).2)) ∧
        (¬ (s.fixtureName = some (fixtureParse v).1 ∧ s.fixtureArgs = (fixtureParse v).2) →
          fixtureSetValue s v = { s with fixtureName := some (fixtureParse v).1,
                                         fixtureArgs := (fixtureParse v).2,
                                         owner := markDirty s.owner })) ∧
    (∀ (s : TagsCtrl) (v : Str),
        (tagsSetValue s v = s ↔ s.tagsValue = some (splitValue v)) ∧
        (¬ s.tagsValue = some (splitValue v) →
          tagsSetValue s v = { s with tagsValue := some (splitValue v),
                                      owner := markDirty s.owner })) ∧
    (∀ (s : TimeoutCtrl) (v : Str),
        (timeoutSetValue s v = s ↔
          (s.timeoutValue = some (timeoutParse v).1 ∧
           s.timeoutMessage = some (timeoutParse v).2)) ∧
        (¬ (s.timeoutValue = some (timeoutParse v).1 ∧
            s.timeoutMessage = some (timeoutParse v).2) →
          timeoutSetValue s v = { s with timeoutValue := some (timeoutParse v).1,
                                         timeoutMessage := some (timeoutParse v).2,
                                         owner := markDirty s.owner })) ∧
    (∀ (s : ArgsCtrl) (v : Str),
        (argsSetValue s v = s ↔ s.argsValue = some (splitValue v)) ∧
        (¬ s.argsValue = some (splitValue v) →
          argsSetValue s v = { argsValue := some (splitValue v),
                               owner := markDirty (notifySettingsChanged s.owner) })) ∧
    (∀ (s : ReturnCtrl) (v : Str),
        (returnSetValue s v = s ↔ s.returnValue = some (splitValue v)) ∧
        (¬ s.returnValue = some (splitValue v) →
          returnSetValue s v = { returnValue := some (splitValue v),
                                 owner := markDirty s.owner })) ∧
    (∀ (s : FixtureCtrl) (v1 v2 : Str), splitValue v1 = splitValue v2 →
        fixtureSetValue s v1 = fixtureSetValue s v2) ∧
    (∀ (s : TagsCtrl) (v1 v2 : Str), splitValue v1 = splitValue v2 →
        tagsSetValue s v1 = tagsSetValue s v2) ∧
    (∀ (s : ArgsCtrl) (v1 v2 : Str), splitValue v1 = splitValue v2 →
        argsSetValue s v1 = argsSetValue s v2) ∧
    (∀ (s : ReturnCtrl) (v1 v2 : Str), splitValue v1 = splitValue v2 →
        returnSetValue s v1 = returnSetValue s v2) := by
  refine ⟨?_, ?_, ?_, ?_, ?_, ?_, ?_, ?_, ?_, ?_, ?_⟩
  · intro s v
    by_cases hv : v = s.docValue
    · refine ⟨⟨fun _ => hv, fun _ => ?_⟩, fun hne => absurd hv hne⟩
      simp [docSetValue, docChanged, hv]
    · have hw : docSetValue s v = { docValue := v, owner := markDirty s.owner } := by
        simp [docSetValue, docChanged, docSet, hv]
      refine ⟨⟨fun hEq => ?_, fun h => absurd h hv⟩, fun _ => hw⟩
      exfalso
      have hd := congrArg (fun t => t.owner.dirtyCount) hEq
      rw [hw] at hd
      simp [markDirty] at hd
  · intro s v
    by_cases hv : s.templateValue = some v
    · refine ⟨⟨fun _ => hv, fun _ => ?_⟩, fun hne => absurd hv hne⟩
      simp [templSetValue, templChanged, hv]
    · have hw : templSetValue s v =
          { s with templateValue := some v,
                   owner := markDirty (notifyStepsChanged s.owner) } := by
        simp [templSetValue, templChanged, templSet, hv]
      refine ⟨⟨fun hEq => ?_, fun h => absurd h hv⟩, fun _ => hw⟩
      exfalso
      have hd := congrArg (fun t => t.owner.dirtyCount) hEq
      rw [hw] at hd
      simp [markDirty, notifyStepsChanged] at hd
  · intro s v
    by_cases h1 : s.fixtureName = some (fixtureParse v).1 <;>
      by_cases h2 : s.fixtureArgs = (fixtureParse v).2
    · refine ⟨⟨fun _ => ⟨h1, h2⟩, fun _ => ?_⟩, fun hne => absurd ⟨h1, h2⟩ hne⟩
      simp [fixtureSetValue, fixtureChanged, h1, h2]
    all_goals
      have hw : fixtureSetValue s v =
          { s with fixtureName := some (fixtureParse v).1,
                   fixtureArgs := (fixtureParse v).2,
                   owner := markDirty s.owner } := by
        simp [fixtureSetValue, fixtureChanged, fixtureSet, h1, h2]
    all_goals
      refine ⟨⟨fun hEq => ?_, fun h => absurd h (by simp [h1, h2])⟩, fun _ => hw⟩
    all_goals
      exfalso
      have hd := congrArg (fun t => t.owner.dirtyCount) hEq
      rw [hw] at hd
      simp [markDirty] at hd
  · intro s v
    by_cases hv : s.tagsValue = some (splitValue v)
    · refine ⟨⟨fun _ => hv, fun _ => ?_⟩, fun hne => absurd hv hne⟩
      simp [tagsSetValue, tagsChanged, hv]
    · have hw : tagsSetValue s v =
          { s with tagsValue := some (splitValue v), owner := markDirty s.owner } := by
        simp [tagsSetValue, tagsChanged, tagsSet, hv]
      refine ⟨⟨fun hEq => ?_, fun h => absurd h hv⟩, fun _ => hw⟩
      exfalso
      have hd := congrArg (fun t => t.owner.dirtyCount) hEq
      rw [hw] at hd
      simp [markDirty] at hd
  · intro s v
    by_cases h1 : s.timeoutValue = some (timeoutParse v).1 <;>
      by_cases h2 : s.timeoutMessage = some (timeoutParse v).2
    · refine ⟨⟨fun _ => ⟨h1, h2⟩, fun _ => ?_⟩, fun hne => absurd ⟨h1, h2⟩ hne⟩
      simp [timeoutSetValue, timeoutChanged, h1, h2]
    all_goals
      have hw : timeoutSetValue s v =
          { s with timeoutValue := some (timeoutParse v).1,
                   timeoutMessage := some (timeoutParse v).2,
                   owner := markDirty s.owner } := by
        simp [timeoutSetValue, timeoutChanged, timeoutSet, h1, h2]
    all_goals
      refine ⟨⟨fun hEq => ?_, fun h => absurd h (by simp [h1, h2])⟩, fun _ => hw⟩
    all_goals
      exfalso
      have hd := congrArg (fun t => t.owner.dirtyCount) hEq
      rw [hw] at hd
      simp [markDirty] at hd
  · intro s v
    by_cases hv : s.argsValue = some (splitValue v)
    · refine ⟨⟨fun _ => hv, fun _ => ?_⟩, fun hne => absurd hv hne⟩
      simp [argsSetValue, argsChanged, hv]
    · have hw : argsSetValue s v =
          { argsValue := some (splitValue v),
            owner := markDirty (notifySettingsChanged s.owner) } := by
        simp [argsSetValue, argsChanged, argsSet, hv]
      refine ⟨⟨fun hEq => ?_, fun h => absurd h hv⟩, fun _ => hw⟩
      exfalso
      have hd := congrArg (fun t => t.owner.dirtyCount) hEq
      rw [hw] at hd
      simp [markDirty, notifySettingsChanged] at hd
  · intro s v
    by_cases hv : s.returnValue = some (splitValue v)
    · refine ⟨⟨fun _ => hv, fun _ => ?_⟩, fun hne => absurd hv hne⟩
      simp [returnSetValue, returnChanged, hv]
    · have hw : returnSetValue s v =
          { returnValue := some (splitValue v), owner := markDirty s.owner } := by
        simp [returnSetValue, returnChanged, returnSet, hv]
      refine ⟨⟨fun hEq => ?_, fun h => absurd h hv⟩, fun _ => hw⟩
      exfalso
      have hd := congrArg (fun t => t.owner.dirtyCount) hEq
      rw [hw] at hd
      simp [markDirty] at hd
  · intro s v1 v2 h
    simp only [fixtureSetValue, fixtureChanged, fixtureSet, fixtureParse, h]
  · intro s v1 v2 h
    simp only [tagsSetValue, tagsChanged, tagsSet, h]
  · intro s v1 v2 h
    simp only [argsSetValue, argsChanged, argsSet, h]
  · intro s v1 v2 h
    simp only [returnSetValue, returnChanged, returnSet, h]

def argsDemo : ArgsCtrl :=
  { argsValue := none,
    owner := { dirtyCount := 0, settingsChangedCount := 0, stepsChangedCount := 0 } }

theorem C1_set_value_change_guard_witness :
    argsSetValue argsDemo " a | b ".data = argsSetValue argsDemo "a|b".data ∧
    argsSetValue argsDemo "a|b".data =
      { argsValue := some (splitValue "a|b".data),
        owner := markDirty (notifySettingsChanged argsDemo.owner) } := by
  constructor
  · exact C1_set_value_change_guard.2.2.2.2.2.2.2.2.2.1 argsDemo
      " a | b ".data "a|b".data (by decide)
  · exact (C1_set_value_change_guard.2.2.2.2.2.1 argsDemo "a|b".data).2 (by decide)

theorem C8_change_name_witness :
    changeName resImportDemo "zzz".data "y".data = resImportDemo ∧
    changeName resImportDemo ".txt".data "-new.tsv".data =
      importSetValueNameOnly resImportDemo
        (resImportDemo.name.take (resImportDemo.name.length - ".txt".data.length)
          ++ "-new.tsv".data) := by
  constructor
  · exact (C8_change_name resImportDemo "zzz".data "y".data).1 (by decide)
  · exact ((C8_change_name resImportDemo ".txt".data "-new.tsv".data).2.1
      (by decide) (by decide)).2

/-! ### Lemmas about the newline-escape passes -/

theorem replCRLF_crlf (cs : Str) :
    replCRLF ('\r' :: '\n' :: cs) = '\\' :: 'n' :: replCRLF cs := rfl

theorem replCRLF_cons_ne (c : Char) (cs : Str) (h : c ≠ '\r') :
    replCRLF (c :: cs) = c :: replCRLF cs := by
  rw [replCRLF.eq_def]
  split <;> simp_all

theorem replCRLF_r_cons (d : Char) (cs : Str) (h : d ≠ '\n') :
    replCRLF ('\r' :: d :: cs) = '\r' :: replCRLF (d :: cs) := by
  rw [replCRLF.eq_def]
  split
  · rename_i heq; exact absurd heq (by simp)
  · rename_i heq
    injection heq with h1 h2
    injection h2 with h3 h4
    exact absurd h3 h
  · rename_i heq
    injection heq with h1 h2
    rw [← h1, ← h2]

theorem replLF_lf (cs : Str) : replLF ('\n' :: cs) = '\\' :: 'n' :: replLF cs := rfl

theorem replLF_cons_ne (c : Char) (cs : Str) (h : c ≠ '\n') :
    replLF (c :: cs) = c :: replLF cs := by
  rw [replLF.eq_def]
  split <;> simp_all

theorem replCR_r (cs : Str) : replCR ('\r' :: cs) = '\\' :: 'n' :: replCR cs := rfl

theorem replCR_cons_ne (c : Char) (cs : Str) (h : c ≠ '\r') :
    replCR (c :: cs) = c :: replCR cs := by
  rw [replCR.eq_def]
  split <;> simp_all

theorem normNL_crlf (cs : Str) :
    normNL ('\r' :: '\n' :: cs) = '\\' :: 'n' :: normNL cs := rfl

theorem normNL_lf (cs : Str) : normNL ('\n' :: cs) = '\\' :: 'n' :: normNL cs := rfl

theorem normNL_r_ne (d : Char) (cs : Str) (h : d ≠ '\n') :
    normNL ('\r' :: d :: cs) = '\\' :: 'n' :: normNL (d :: cs) := by
  rw [normNL.eq_def]
  split
  · rename_i heq; exact absurd heq (by simp)
  · rename_i heq
    injection heq with h1 h2
    injection h2 with h3 h4
    exact absurd h3 h
  · rename_i heq
    injection heq with h1 h2
    exact absurd h1 (by decide)
  · rename_i heq
    injection heq with h1 h2
    rw [← h2]
  · rename_i hne heq
    injection heq with h1 h2
    exact absurd h1.symm hne

theorem normNL_other (c : Char) (cs : Str) (h1 : c ≠ '\r') (h2 : c ≠ '\n') :
    normNL (c :: cs) = c :: normNL cs := by
  rw [normNL.eq_def]
  split <;> simp_all

/-- The three sequential `str.replace` passes of the source equal the
single-pass specification `normNL`. -/
theorem escape_chain : ∀ t : Str, replCR (replLF (replCRLF t)) = normNL t := by
  have H : ∀ n : Nat, ∀ t : Str, t.length ≤ n →
      replCR (replLF (replCRLF t)) = normNL t := by
    intro n
    induction n with
    | zero =>
        intro t ht
        have hnil : t = [] := by
          cases t with
          | nil => rfl
          | cons c cs => simp at ht
        subst hnil; rfl
    | succ n ih =>
        intro t ht
        cases t with
        | nil => rfl
        | cons c t =>
          by_cases hc : c = '\r'
          · subst hc
            cases t with
            | nil => rfl
            | cons d t =>
              by_cases hd : d = '\n'
              · subst hd
                rw [replCRLF_crlf,
                    replLF_cons_ne _ _ (by decide), replLF_cons_ne _ _ (by decide),
                    replCR_cons_ne _ _ (by decide), replCR_cons_ne _ _ (by decide),
                    ih t (by simp at ht; omega), normNL_crlf]
              · rw [replCRLF_r_cons d t hd, replLF_cons_ne _ _ (by decide),
                    replCR_r, ih (d :: t) (by simp at ht ⊢; omega),
                    normNL_r_ne d t hd]
          · by_cases hn : c = '\n'
            · subst hn
              rw [replCRLF_cons_ne _ _ (by decide), replLF_lf,
                  replCR_cons_ne _ _ (by decide), replCR_cons_ne _ _ (by decide),
                  ih t (by simp at ht; omega), normNL_lf]
            · rw [replCRLF_cons_ne _ _ hc, replLF_cons_ne _ _ hn,
                  replCR_cons_ne _ _ hc, ih t (by simp at ht; omega),
                  normNL_other _ _ hc hn]
  exact fun t => H t.length t (Nat.le_refl _)

theorem normNL_no_newline (t : Str) : ¬ '\n' ∈ normNL t ∧ ¬ '\r' ∈ normNL t := by
  induction t using normNL.induct <;> simp_all [normNL]
  rename_i hn hr ih
  exact ⟨fun h => hn h.symm, fun h => hr h.symm⟩

theorem dropWhile_append_last (p : Char → Bool) (a : Char) (h : p a = false) :
    ∀ l : Str, List.dropWhile p (l ++ [a]) = List.dropWhile p l ++ [a] := by
  intro l
  induction l with
  | nil => simp [List.dropWhile_cons, h]
  | cons x l ihl =>
      by_cases hx : p x
      · simp [List.dropWhile_cons, hx, ihl]
      · simp [List.dropWhile_cons, hx]

theorem pyStrip_hash_head (X : Str) : (pyStrip ('#' :: X)).head? = some '#' := by
  unfold pyStrip
  rw [List.dropWhile_cons]
  have h1 : isPySpace '#' = false := rfl
  rw [h1]
  simp only [Bool.false_eq_true, if_false, List.reverse_cons]
  rw [dropWhile_append_last _ _ h1]
  simp

/-- The source's escape function equals its single-pass specification. -/
theorem escape_eq_spec (t : Str) :
    escapeNewlinesAndLeadingHash t = specEscape t := by
  simp only [escapeNewlinesAndLeadingHash, specEscape]
  rw [escape_chain]

/-- C6: assigning `editable_value = t` stores a value in which every literal
newline variant of `t` (`\r\n`, `\n`, `\r`, in that replacement order, i.e.
the single-pass normalisation `normNL`) is replaced by the two-character
escape `\n`, with one backslash prefixed when the stripped result begins with
`#`; in particular input starting with `#` is stored starting with `\#`, and
the stored value contains no literal newline characters. -/
theorem C6_editable_value_write_back :
    (∀ t : Str, escapeNewlinesAndLeadingHash t = specEscape t) ∧
    (∀ (s : DocCtrl) (t : Str),
        (docSetEditableValue s t).docValue = escapeNewlinesAndLeadingHash t) ∧
    (∀ t : Str, ¬ '\n' ∈ escapeNewlinesAndLeadingHash t ∧
        ¬ '\r' ∈ escapeNewlinesAndLeadingHash t) ∧
    (∀ t : Str, t.head? = some '#' →
        ∃ rest : Str, escapeNewlinesAndLeadingHash t = '\\' :: '#' :: rest) := by
  refine ⟨escape_eq_spec, ?_, ?_, ?_⟩
  · intro s t
    unfold docSetEditableValue docSetValue
    by_cases h : docChanged s (escapeNewlinesAndLeadingHash t)
    · simp [h, docSet]
    · simp only [h, if_false]
      unfold docChanged at h
      simp only [ne_eq, not_not] at h
      exact h.symm
  · intro t
    rw [escape_eq_spec]
    simp only [specEscape]
    have hn := normNL_no_newline t
    by_cases h : (pyStrip (normNL t)).head? = some '#'
    · simp only [h, if_pos]
      constructor
      · intro hmem
        rcases List.mem_cons.mp hmem with h1 | h1
        · exact absurd h1 (by decide)
        · exact hn.1 h1
      · intro hmem
        rcases List.mem_cons.mp hmem with h1 | h1
        · exact absurd h1 (by decide)
        · exact hn.2 h1
    · simp only [h, if_false]
      exact hn
  · intro t ht
    cases t with
    | nil => simp at ht
    | cons c cs =>
        have hc : c = '#' := by simpa using ht
        subst hc
        rw [escape_eq_spec]
        simp only [specEscape]
        have hnorm : normNL ('#' :: cs) = '#' :: normNL cs :=
          normNL_other _ _ (by decide) (by decide)
        rw [hnorm, pyStrip_hash_head]
        simp

def docDemo : DocCtrl :=
  { docValue := [],
    owner := { dirtyCount := 0, settingsChangedCount := 0, stepsChangedCount := 0 } }

theorem C6_editable_value_write_back_witness :
    (docSetEditableValue docDemo "#c".data).docValue =
      escapeNewlinesAndLeadingHash "#c".data ∧
    (∃ rest : Str, escapeNewlinesAndLeadingHash "#c".data = '\\' :: '#' :: rest) := by
  constructor
  · exact C6_editable_value_write_back.2.1 docDemo "#c".data
  · exact C6_editable_value_write_back.2.2.2 "#c".data rfl

/-! ### Lemmas about the unescape passes -/

theorem sub1_run (m : Nat) :
    ∀ (k : Nat) (l : Str), sub1 k (List.replicate m '\\' ++ l) = sub1 (k + m) l := by
  induction m with
  | zero => intro k l; simp
  | succ m ihm =>
      intro k l
      have hrep : List.replicate (m + 1) '\\' ++ l =
          '\\' :: (List.replicate m '\\' ++ l) := by
        simp [List.replicate_succ]
      rw [hrep]
      have hstep : sub1 k ('\\' :: (List.replicate m '\\' ++ l)) =
          sub1 (k + 1) (List.replicate m '\\' ++ l) := rfl
      rw [hstep, ihm]
      congr 1
      omega

theorem sub2_run (m : Nat) :
    ∀ (k : Nat) (l : Str), sub2 k (List.replicate m '\\' ++ l) = sub2 (k + m) l := by
  induction m with
  | zero => intro k l; simp
  | succ m ihm =>
      intro k l
      have hrep : List.replicate (m + 1) '\\' ++ l =
          '\\' :: (List.replicate m '\\' ++ l) := by
        simp [List.replicate_succ]
      rw [hrep]
      have hstep : sub2 k ('\\' :: (List.replicate m '\\' ++ l)) =
          sub2 (k + 1) (List.replicate m '\\' ++ l) := rfl
      rw [hstep, ihm]
      congr 1
      omega

theorem sub3_run (m : Nat) :
    ∀ (k : Nat) (l : Str), sub3 k (List.replicate m '\\' ++ l) = sub3 (k + m) l := by
  induction m with
  | zero => intro k l; simp
  | succ m ihm =>
      intro k l
      have hrep : List.replicate (m + 1) '\\' ++ l =
          '\\' :: (List.replicate m '\\' ++ l) := by
        simp [List.replicate_succ]
      rw [hrep]
      have hstep : sub3 k ('\\' :: (List.replicate m '\\' ++ l)) =
          sub3 (k + 1) (List.replicate m '\\' ++ l) := rfl
      rw [hstep, ihm]
      congr 1
      omega

theorem sub1_n (k : Nat) : sub1 k ['n'] = List.replicate k '\\' ++ ['n'] := rfl

theorem sub1_r (k : Nat) : sub1 k ['r'] = List.replicate k '\\' ++ ['r'] := rfl

theorem sub1_rbn (k : Nat) : sub1 k ['r', '\\', 'n'] =
    if 0 < k then
      (if k % 2 = 1 then List.replicate (k - 1) '\\' ++ ['\n']
       else List.replicate k '\\' ++ ['r', '\\', 'n'])
    else ['r', '\\', 'n'] := by
  show (if 0 < k then
      (if k % 2 = 1 then List.replicate (k - 1) '\\' ++ ['\n']
       else List.replicate k '\\' ++ ['r', '\\', 'n']) ++ sub1 0 []
    else 'r' :: sub1 0 ['\\', 'n']) = _
  by_cases h : 0 < k
  · simp [h, show sub1 0 [] = ([] : Str) from rfl]
  · have h0 : k = 0 := by omega
    subst h0
    rfl

theorem sub2_n (k : Nat) : sub2 k ['n'] =
    if 0 < k then
      (if k % 2 = 1 then List.replicate (k - 1) '\\' ++ ['\n']
       else List.replicate k '\\' ++ ['n'])
    else ['n'] := by
  show (if 0 < k then
      (if k % 2 = 1 then List.replicate (k - 1) '\\' ++ ['\n']
       else List.replicate k '\\' ++ ['n']) ++ sub2 0 []
    else 'n' :: sub2 0 []) = _
  by_cases h : 0 < k
  · simp [h, show sub2 0 [] = ([] : Str) from rfl]
  · have h0 : k = 0 := by omega
    subst h0
    rfl

theorem sub2_nl (k : Nat) : sub2 k ['\n'] = List.replicate k '\\' ++ ['\n'] := rfl

theorem sub2_r (k : Nat) : sub2 k ['r'] = List.replicate k '\\' ++ ['r'] := rfl

theorem sub2_rbn (k : Nat) :
    sub2 k ['r', '\\', 'n'] = List.replicate k '\\' ++ ['r', '\n'] := rfl

theorem sub3_nl (k : Nat) : sub3 k ['\n'] = List.replicate k '\\' ++ ['\n'] := rfl

theorem sub3_n (k : Nat) : sub3 k ['n'] = List.replicate k '\\' ++ ['n'] := rfl

theorem sub3_r (k : Nat) : sub3 k ['r'] =
    if 0 < k then
      (if k % 2 = 1 then List.replicate (k - 1) '\\' ++ ['\n']
       else List.replicate k '\\' ++ ['r'])
    else ['r'] := by
  show (if 0 < k then
      (if k % 2 = 1 then List.replicate (k - 1) '\\' ++ ['\n']
       else List.replicate k '\\' ++ ['r']) ++ sub3 0 []
    else 'r' :: sub3 0 []) = _
  by_cases h : 0 < k
  · simp [h, show sub3 0 [] = ([] : Str) from rfl]
  · have h0 : k = 0 := by omega
    subst h0
    rfl

theorem sub3_r_nl (k : Nat) : sub3 k ['r', '\n'] =
    if 0 < k then
      (if k % 2 = 1 then List.replicate (k - 1) '\\' ++ ['\n']
       else List.replicate k '\\' ++ ['r']) ++ ['\n']
    else ['r', '\n'] := by
  show (if 0 < k then
      (if k % 2 = 1 then List.replicate (k - 1) '\\' ++ ['\n']
       else List.replicate k '\\' ++ ['r']) ++ sub3 0 ['\n']
    else 'r' :: sub3 0 ['\n']) = _
  by_cases h : 0 < k
  · simp [h, show sub3 0 ['\n'] = ['\n'] from rfl]
  · have h0 : k = 0 := by omega
    subst h0
    rfl

/-! Arm-level equations for the three passes and for `specUnescapeAux`,
used to prove that the sequential pipeline equals the single-pass
occurrence rewriter on every input. -/

theorem sub1_empty (k : Nat) : sub1 k [] = List.replicate k '\\' := rfl

theorem sub2_empty (k : Nat) : sub2 k [] = List.replicate k '\\' := rfl

theorem sub3_empty (k : Nat) : sub3 k [] = List.replicate k '\\' := rfl

theorem sub2_rep (k : Nat) : sub2 0 (List.replicate k '\\') = List.replicate k '\\' := by
  have h := sub2_run k 0 ([] : Str)
  rw [List.append_nil] at h
  rw [h, Nat.zero_add, sub2_empty]

theorem sub3_rep (k : Nat) : sub3 0 (List.replicate k '\\') = List.replicate k '\\' := by
  have h := sub3_run k 0 ([] : Str)
  rw [List.append_nil] at h
  rw [h, Nat.zero_add, sub3_empty]

theorem sub1_bs_step (k : Nat) (cs : Str) : sub1 k ('\\' :: cs) = sub1 (k + 1) cs := rfl

theorem sub1_letter_n (k : Nat) (cs : Str) :
    sub1 k ('n' :: cs) = List.replicate k '\\' ++ 'n' :: sub1 0 cs := rfl

theorem sub2_zero_bs_n (cs : Str) : sub2 0 ('\\' :: 'n' :: cs) = '\n' :: sub2 0 cs := rfl

theorem sub2_zero_r (cs : Str) : sub2 0 ('r' :: cs) = 'r' :: sub2 0 cs := rfl

theorem sub3_zero_r (cs : Str) : sub3 0 ('r' :: cs) = 'r' :: sub3 0 cs := rfl

theorem sub3_zero_n (cs : Str) : sub3 0 ('n' :: cs) = 'n' :: sub3 0 cs := rfl

theorem sub3_zero_nl (cs : Str) : sub3 0 ('\n' :: cs) = '\n' :: sub3 0 cs := rfl

theorem sub1_escape_rbn (k : Nat) (cs : Str) :
    sub1 k ('r' :: '\\' :: 'n' :: cs) =
      if 0 < k then
        (if k % 2 = 1 then List.replicate (k - 1) '\\' ++ '\n' :: sub1 0 cs
         else List.replicate k '\\' ++ 'r' :: '\\' :: 'n' :: sub1 0 cs)
      else 'r' :: sub1 0 ('\\' :: 'n' :: cs) := by
  show (if 0 < k then
      (if k % 2 = 1 then List.replicate (k - 1) '\\' ++ ['\n']
       else List.replicate k '\\' ++ ['r', '\\', 'n']) ++ sub1 0 cs
    else 'r' :: sub1 0 ('\\' :: 'n' :: cs)) = _
  by_cases hk : 0 < k
  · by_cases ho : k % 2 = 1 <;> simp [hk, ho]
  · simp [hk]

theorem sub2_letter_n (k : Nat) (cs : Str) :
    sub2 k ('n' :: cs) =
      if 0 < k then
        (if k % 2 = 1 then List.replicate (k - 1) '\\' ++ '\n' :: sub2 0 cs
         else List.replicate k '\\' ++ 'n' :: sub2 0 cs)
      else 'n' :: sub2 0 cs := by
  show (if 0 < k then
      (if k % 2 = 1 then List.replicate (k - 1) '\\' ++ ['\n']
       else List.replicate k '\\' ++ ['n']) ++ sub2 0 cs
    else 'n' :: sub2 0 cs) = _
  by_cases hk : 0 < k
  · by_cases ho : k % 2 = 1 <;> simp [hk, ho]
  · simp [hk]

theorem sub3_letter_r (k : Nat) (cs : Str) :
    sub3 k ('r' :: cs) =
      if 0 < k then
        (if k % 2 = 1 then List.replicate (k - 1) '\\' ++ '\n' :: sub3 0 cs
         else List.replicate k '\\' ++ 'r' :: sub3 0 cs)
      else 'r' :: sub3 0 cs := by
  show (if 0 < k then
      (if k % 2 = 1 then List.replicate (k - 1) '\\' ++ ['\n']
       else List.replicate k '\\' ++ ['r']) ++ sub3 0 cs
    else 'r' :: sub3 0 cs) = _
  by_cases hk : 0 < k
  · by_cases ho : k % 2 = 1 <;> simp [hk, ho]
  · simp [hk]

theorem sub1_plain (k : Nat) (c : Char) (cs : Str) (h1 : c ≠ '\\') (h2 : c ≠ 'r') :
    sub1 k (c :: cs) = List.replicate k '\\' ++ c :: sub1 0 cs := by
  rw [sub1.eq_def]
  split <;> simp_all

theorem sub1_r_no_escape (k : Nat) (cs : Str)
    (h : ∀ cs' : Str, cs ≠ '\\' :: 'n' :: cs') :
    sub1 k ('r' :: cs) = List.replicate k '\\' ++ 'r' :: sub1 0 cs := by
  rw [sub1.eq_def]
  split <;> simp_all
  rename_i hx heq
  exact heq.1.symm

theorem sub2_plain (k : Nat) (c : Char) (cs : Str) (h1 : c ≠ '\\') (h2 : c ≠ 'n') :
    sub2 k (c :: cs) = List.replicate k '\\' ++ c :: sub2 0 cs := by
  rw [sub2.eq_def]
  split <;> simp_all

theorem sub3_plain (k : Nat) (c : Char) (cs : Str) (h1 : c ≠ '\\') (h2 : c ≠ 'r') :
    sub3 k (c :: cs) = List.replicate k '\\' ++ c :: sub3 0 cs := by
  rw [sub3.eq_def]
  split <;> simp_all

theorem specU_bs_step (k : Nat) (cs : Str) :
    specUnescapeAux k ('\\' :: cs) = specUnescapeAux (k + 1) cs := rfl

theorem specU_letter_n (k : Nat) (cs : Str) :
    specUnescapeAux k ('n' :: cs) =
      if 0 < k then
        (if k % 2 = 1 then List.replicate (k - 1) '\\' ++ '\n' :: specUnescapeAux 0 cs
         else List.replicate k '\\' ++ 'n' :: specUnescapeAux 0 cs)
      else 'n' :: specUnescapeAux 0 cs := rfl

theorem specU_escape_rbn (k : Nat) (cs : Str) :
    specUnescapeAux k ('r' :: '\\' :: 'n' :: cs) =
      if 0 < k then
        (if k % 2 = 1 then List.replicate (k - 1) '\\' ++ '\n' :: specUnescapeAux 0 cs
         else List.replicate k '\\' ++ 'r' :: '\n' :: specUnescapeAux 0 cs)
      else 'r' :: specUnescapeAux 0 ('\\' :: 'n' :: cs) := rfl

theorem specU_plain (k : Nat) (c : Char) (cs : Str)
    (h1 : c ≠ '\\') (h2 : c ≠ 'r') (h3 : c ≠ 'n') :
    specUnescapeAux k (c :: cs) = List.replicate k '\\' ++ c :: specUnescapeAux 0 cs := by
  rw [specUnescapeAux.eq_def]
  split <;> simp_all

theorem specU_r_no_escape (k : Nat) (cs : Str)
    (h : ∀ cs' : Str, cs ≠ '\\' :: 'n' :: cs') :
    specUnescapeAux k ('r' :: cs) =
      if 0 < k then
        (if k % 2 = 1 then List.replicate (k - 1) '\\' ++ '\n' :: specUnescapeAux 0 cs
         else List.replicate k '\\' ++ 'r' :: specUnescapeAux 0 cs)
      else 'r' :: specUnescapeAux 0 cs := by
  rw [specUnescapeAux.eq_def]
  split <;> simp_all
  rename_i hx heq
  exact absurd heq.1.symm hx

/-- The three sequential regexp passes of the source equal the single-pass
occurrence rewriter, for every input and every pending backslash run. -/
theorem pipeline_to_spec :
    ∀ n : Nat, ∀ t : Str, t.length ≤ n → ∀ k : Nat,
      sub3 0 (sub2 0 (sub1 k t)) = specUnescapeAux k t := by
  intro n
  induction n with
  | zero =>
      intro t ht k
      have hnil : t = [] := by
        cases t with
        | nil => rfl
        | cons c cs => simp at ht
      subst hnil
      rw [sub1_empty, sub2_rep, sub3_rep]
      rfl
  | succ n ih =>
      intro t ht k
      cases t with
      | nil =>
          rw [sub1_empty, sub2_rep, sub3_rep]
          rfl
      | cons c cs =>
          have hlen : cs.length ≤ n := by simp at ht; omega
          by_cases hbs : c = '\\'
          · subst hbs
            rw [sub1_bs_step, specU_bs_step]
            exact ih cs hlen (k + 1)
          · by_cases hn : c = 'n'
            · subst hn
              rw [sub1_letter_n, sub2_run, Nat.zero_add, sub2_letter_n,
                  specU_letter_n]
              by_cases hk : 0 < k
              · rw [if_pos hk, if_pos hk]
                by_cases ho : k % 2 = 1
                · rw [if_pos ho, if_pos ho, sub3_run, Nat.zero_add,
                      sub3_plain _ _ _ (by decide) (by decide), ih cs hlen 0]
                · rw [if_neg ho, if_neg ho, sub3_run, Nat.zero_add,
                      sub3_plain _ _ _ (by decide) (by decide), ih cs hlen 0]
              · rw [if_neg hk, if_neg hk, sub3_zero_n, ih cs hlen 0]
            · by_cases hr : c = 'r'
              · subst hr
                by_cases harm : ∃ cs' : Str, cs = '\\' :: 'n' :: cs'
                · obtain ⟨cs', rfl⟩ := harm
                  have hlen' : cs'.length ≤ n := by simp at ht; omega
                  rw [sub1_escape_rbn, specU_escape_rbn]
                  by_cases hk : 0 < k
                  · rw [if_pos hk, if_pos hk]
                    by_cases ho : k % 2 = 1
                    · rw [if_pos ho, if_pos ho, sub2_run, Nat.zero_add,
                          sub2_plain _ _ _ (by decide) (by decide),
                          sub3_run, Nat.zero_add,
                          sub3_plain _ _ _ (by decide) (by decide),
                          ih cs' hlen' 0]
                    · rw [if_neg ho, if_neg ho, sub2_run, Nat.zero_add,
                          sub2_plain _ _ _ (by decide) (by decide),
                          sub2_zero_bs_n, sub3_run, Nat.zero_add,
                          sub3_letter_r, if_pos hk, if_neg ho,
                          sub3_zero_nl, ih cs' hlen' 0]
                  · rw [if_neg hk, if_neg hk, sub2_zero_r, sub3_zero_r]
                    exact congrArg (List.cons 'r')
                      (ih ('\\' :: 'n' :: cs') (by simp at ht ⊢; omega) 0)
                · push_neg at harm
                  rw [sub1_r_no_escape k cs harm, sub2_run, Nat.zero_add,
                      sub2_plain _ _ _ (by decide) (by decide),
                      sub3_run, Nat.zero_add, sub3_letter_r,
                      specU_r_no_escape k cs harm, ih cs hlen 0]
              · rw [sub1_plain _ _ _ hbs hr, sub2_run, Nat.zero_add,
                    sub2_plain _ _ _ hbs hn,
                    sub3_run, Nat.zero_add, sub3_plain _ _ _ hbs hr,
                    ih cs hlen 0, specU_plain _ _ _ hbs hr hn]

/-- C5 counterexample: the input with two backslashes followed by `r`, `\`,
`n` has an even backslash count, yet `editable_value` does not leave it
unchanged — the `(\\+)n` pass unescapes the trailing `\n`, giving the two
backslashes, `r`, and a literal newline. -/
theorem C5_even_run_counterexample :
    unescapeNewlines ['\\', '\\', 'r', '\\', 'n'] = ['\\', '\\', 'r', '\n'] ∧
    (['\\', '\\', 'r', '\n'] : Str) ≠ ['\\', '\\', 'r', '\\', 'n'] := by
  constructor
  · rfl
  · decide

/-- C5 amended: for every stored documentation value, `editable_value`
rewrites each occurrence of a run of `k` backslashes immediately followed by
a newline-escape letter sequence (`n`, `r`, or `r\n`) to `k - 1` backslashes
plus a literal newline when `k` is odd; when `k` is even, `n` and `r`
occurrences are left unchanged, but an even-count `r\n` occurrence keeps its
backslashes and the `r` while its trailing `\n` is still converted to a
newline by the later `(\\+)n` pass.  Formalised as equality, on every input,
between the source's three-pass unescape and the single-pass per-occurrence
rewriter `specUnescape`; the closed formulas for a single run and the spec's
embedded-occurrence example follow. -/
theorem C5_editable_value_unescape :
    (∀ t : Str, unescapeNewlines t = specUnescape t) ∧
    (∀ s : DocCtrl, docEditableValue s = unescapeNewlines s.docValue) ∧
    (∀ k : Nat,
      (unescapeNewlines (List.replicate k '\\' ++ ['n']) =
        if k % 2 = 1 then List.replicate (k - 1) '\\' ++ ['\n']
        else List.replicate k '\\' ++ ['n']) ∧
      (unescapeNewlines (List.replicate k '\\' ++ ['r']) =
        if k % 2 = 1 then List.replicate (k - 1) '\\' ++ ['\n']
        else List.replicate k '\\' ++ ['r']) ∧
      (unescapeNewlines (List.replicate k '\\' ++ ['r', '\\', 'n']) =
        if k % 2 = 1 then List.replicate (k - 1) '\\' ++ ['\n']
        else List.replicate k '\\' ++ ['r', '\n'])) ∧
    unescapeNewlines ['a', '\\', 'n', 'b'] = ['a', '\n', 'b'] := by
  refine ⟨?_, fun _ => rfl, fun k => ⟨?_, ?_, ?_⟩, rfl⟩
  · intro t
    exact pipeline_to_spec t.length t (Nat.le_refl _) 0
  · unfold unescapeNewlines
    rw [sub1_run, Nat.zero_add, sub1_n, sub2_run, Nat.zero_add, sub2_n]
    by_cases h : 0 < k
    · rw [if_pos h]
      by_cases ho : k % 2 = 1
      · rw [if_pos ho, sub3_run, Nat.zero_add, sub3_nl]
      · rw [if_neg ho, sub3_run, Nat.zero_add, sub3_n]
    · have h0 : k = 0 := by omega
      subst h0
      rfl
  · unfold unescapeNewlines
    rw [sub1_run, Nat.zero_add, sub1_r, sub2_run, Nat.zero_add, sub2_r,
        sub3_run, Nat.zero_add, sub3_r]
    by_cases h : 0 < k
    · rw [if_pos h]
    · have h0 : k = 0 := by omega
      subst h0
      rfl
  · unfold unescapeNewlines
    rw [sub1_run, Nat.zero_add, sub1_rbn]
    by_cases h : 0 < k
    · rw [if_pos h]
      by_cases ho : k % 2 = 1
      · rw [if_pos ho, sub2_run, Nat.zero_add, sub2_nl,
            sub3_run, Nat.zero_add, sub3_nl, if_pos ho]
      · rw [if_neg ho, sub2_run, Nat.zero_add, sub2_rbn,
            sub3_run, Nat.zero_add, sub3_r_nl, if_pos h, if_neg ho, if_neg ho]
        simp
    · have h0 : k = 0 := by omega
      subst h0
      rfl

end RideModel
